import Mathlib

/-!
Verification development for the mtprotoproxy-go repository.

The Go source is shallowly embedded: bytes are natural numbers (well formed
when < 256), byte slices are lists, Go strings are lists of characters or
their byte sequences, machine words are naturals reduced modulo the word
size at the points where Go truncates, time instants are integers
(nanoseconds), and fallible functions return Except.  Each definition cites
the source location it embeds.
-/

namespace MTProxy

/-- Secret type tag, from the SecretType constants of the source
(part_001 lines 70-76). -/
inductive SecretType where
  | simple
  | secured
  | fakeTLS
deriving DecidableEq, Repr

/-- The Secret structure of the source (part_001 lines 64-68): a 16-byte
key, the SNI host (a Go string, modelled by its byte sequence), and a tag. -/
structure Secret where
  key : List Nat
  host : List Nat
  type : SecretType
deriving DecidableEq, Repr

/-- Numeric value of one hex digit, as accepted by Go encoding/hex
(digits, lowercase and uppercase letters). -/
def hexDigitVal (c : Char) : Option Nat :=
  if ('0' ≤ c ∧ c ≤ '9') then some (c.toNat - '0'.toNat)
  else if ('a' ≤ c ∧ c ≤ 'f') then some (c.toNat - 'a'.toNat + 10)
  else if ('A' ≤ c ∧ c ≤ 'F') then some (c.toNat - 'A'.toNat + 10)
  else none

/-- Go hex.DecodeString: two hex digits per byte; fails on an odd length or
on a character that is not a hex digit. -/
def hexDecode : List Char → Option (List Nat)
  | [] => some []
  | [_] => none
  | c1 :: c2 :: rest =>
    match hexDigitVal c1, hexDigitVal c2, hexDecode rest with
    | some hi, some lo, some bs => some ((16 * hi + lo) :: bs)
    | _, _, _ => none

/-- Lowercase hex digit character, as in Go encoding/hex. -/
def hexDigitChar (n : Nat) : Char :=
  if n < 10 then Char.ofNat ('0'.toNat + n) else Char.ofNat ('a'.toNat + (n - 10))

/-- Go hex.EncodeToString: two lowercase hex digits per byte (bytes are
taken modulo 256, the width of the Go byte type). -/
def hexEncode : List Nat → List Char
  | [] => []
  | b :: bs => hexDigitChar (b % 256 / 16) :: hexDigitChar (b % 16) :: hexEncode bs

/-- The failure cases of parseSecret (part_001 lines 815-846). -/
inductive SecretErr where
  | tooShort
  | invalidHex
  | dataTooShort
deriving DecidableEq, Repr

/-- parseSecret from the source (part_001 lines 815-846), acting on the hex
string's character list.  The source leaves Host empty unless the decoded
data has more than 17 bytes; for exactly 17 bytes List.drop 17 is likewise
empty, so a single drop is a faithful model. -/
def parseSecret (secretStr : List Char) : Except SecretErr Secret :=
  if secretStr.length < 32 then .error .tooShort
  else
    match hexDecode secretStr with
    | none => .error .invalidHex
    | some data =>
      if data.length < 16 then .error .dataTooShort
      else if 16 < data.length ∧ data.headD 0 = 0xee then
        .ok { key := (data.drop 1).take 16, host := data.drop 17, type := .fakeTLS }
      else if 16 < data.length ∧ data.headD 0 = 0xdd then
        .ok { key := (data.drop 1).take 16, host := [], type := .secured }
      else
        .ok { key := data.take 16, host := [], type := .simple }

/-- generateSecret from the source (part_001 lines 848-860): a FakeTLS
secret whose key is filled by crypto/rand; the 16 random bytes are passed
explicitly here. -/
def generateSecret (sniDomain : List Nat) (randKey : List Nat) : Secret :=
  { key := randKey, host := sniDomain, type := .fakeTLS }

/-- The hex wire-form of a secret as the source prints it (part_001 lines
487-490 and 879): hex of the key, with an ee prefix and the hex of the SNI
host appended for FakeTLS secrets. -/
def secretHexForm (s : Secret) : List Char :=
  if s.type = .fakeTLS then 'e' :: 'e' :: (hexEncode s.key ++ hexEncode s.host)
  else hexEncode s.key

/-! SHA-256 (crypto/sha256), used by the anti-replay fingerprint and named
by the specification's key-derivation contract.  Words are naturals reduced
modulo 2^32 wherever Go's uint32 arithmetic truncates. -/

/-- Truncation to a 32-bit word. -/
def w32 (n : Nat) : Nat := n % 4294967296

/-- Right rotation of a 32-bit word (x is assumed < 2^32). -/
def rotr32 (x n : Nat) : Nat := w32 ((x >>> n) ||| (x <<< (32 - n)))

/-- The SHA-256 Ch function. -/
def shaCh (x y z : Nat) : Nat := (x &&& y) ^^^ ((x ^^^ 4294967295) &&& z)

/-- The SHA-256 Maj function. -/
def shaMaj (x y z : Nat) : Nat := (x &&& y) ^^^ (x &&& z) ^^^ (y &&& z)

/-- The SHA-256 big Sigma0. -/
def bsig0 (x : Nat) : Nat := rotr32 x 2 ^^^ rotr32 x 13 ^^^ rotr32 x 22

/-- The SHA-256 big Sigma1. -/
def bsig1 (x : Nat) : Nat := rotr32 x 6 ^^^ rotr32 x 11 ^^^ rotr32 x 25

/-- The SHA-256 small sigma0. -/
def ssig0 (x : Nat) : Nat := rotr32 x 7 ^^^ rotr32 x 18 ^^^ (x >>> 3)

/-- The SHA-256 small sigma1. -/
def ssig1 (x : Nat) : Nat := rotr32 x 17 ^^^ rotr32 x 19 ^^^ (x >>> 10)

/-- The 64 SHA-256 round constants. -/
def shaK : List Nat :=
  [1116352408, 1899447441, 3049323471, 3921009573, 961987163, 1508970993,
   2453635748, 2870763221, 3624381080, 310598401, 607225278, 1426881987,
   1925078388, 2162078206, 2614888103, 3248222580, 3835390401, 4022224774,
   264347078, 604807628, 770255983, 1249150122, 1555081692, 1996064986,
   2554220882, 2821834349, 2952996808, 3210313671, 3336571891, 3584528711,
   113926993, 338241895, 666307205, 773529912, 1294757372, 1396182291,
   1695183700, 1986661051, 2177026350, 2456956037, 2730485921, 2820302411,
   3259730800, 3345764771, 3516065817, 3600352804, 4094571909, 275423344,
   430227734, 506948616, 659060556, 883997877, 958139571, 1322822218,
   1537002063, 1747873779, 1955562222, 2024104815, 2227730452, 2361852424,
   2428436474, 2756734187, 3204031479, 3329325298]

/-- The SHA-256 working state: eight 32-bit words. -/
structure Hash8 where
  a : Nat
  b : Nat
  c : Nat
  d : Nat
  e : Nat
  f : Nat
  g : Nat
  h : Nat
deriving DecidableEq, Repr

/-- The SHA-256 initial hash value. -/
def shaH0 : Hash8 :=
  ⟨1779033703, 3144134277, 1013904242, 2773480762,
   1359893119, 2600822924, 528734635, 1541459225⟩

/-- Big-endian 32-bit words from a byte list (groups of four; a trailing
group shorter than four bytes is dropped, which never happens on whole
blocks). -/
def bytesToWords : List Nat → List Nat
  | b0 :: b1 :: b2 :: b3 :: rest =>
    ((((b0 % 256) * 256 + b1 % 256) * 256 + b2 % 256) * 256 + b3 % 256) :: bytesToWords rest
  | _ => []

/-- The 64-entry SHA-256 message schedule from the 16 words of one block.
The accumulator holds the schedule most-recent-first, so the terms
w[i-2], w[i-7], w[i-15], w[i-16] sit at positions 1, 6, 14, 15. -/
def shaSchedule (w16 : List Nat) : List Nat :=
  let step := fun (acc : List Nat) (_ : Nat) =>
    w32 (ssig1 (acc.getD 1 0) + acc.getD 6 0 + ssig0 (acc.getD 14 0) + acc.getD 15 0) :: acc
  ((List.range 48).foldl step w16.reverse).reverse

/-- One SHA-256 compression round. -/
def shaRound (s : Hash8) (kw : Nat × Nat) : Hash8 :=
  let t1 := w32 (s.h + bsig1 s.e + shaCh s.e s.f s.g + kw.1 + kw.2)
  let t2 := w32 (bsig0 s.a + shaMaj s.a s.b s.c)
  ⟨w32 (t1 + t2), s.a, s.b, s.c, w32 (s.d + t1), s.e, s.f, s.g⟩

/-- The SHA-256 compression of one 64-byte block. -/
def shaCompress (hv : Hash8) (block : List Nat) : Hash8 :=
  let ws := shaSchedule (bytesToWords block)
  let s := (shaK.zip ws).foldl shaRound hv
  ⟨w32 (hv.a + s.a), w32 (hv.b + s.b), w32 (hv.c + s.c), w32 (hv.d + s.d),
   w32 (hv.e + s.e), w32 (hv.f + s.f), w32 (hv.g + s.g), w32 (hv.h + s.h)⟩

/-- Split a byte list into 64-byte chunks; the fuel argument (at least the
list length) makes the recursion structural, so terms reduce. -/
def chunks64Fuel : Nat → List Nat → List (List Nat)
  | 0, _ => []
  | _, [] => []
  | fuel + 1, b :: rest => (b :: rest.take 63) :: chunks64Fuel fuel (rest.drop 63)

/-- Split a byte list into 64-byte chunks. -/
def chunks64 (l : List Nat) : List (List Nat) := chunks64Fuel l.length l

/-- Eight big-endian bytes of a (bit-)length value. -/
def lenBE8 (n : Nat) : List Nat :=
  [n / 72057594037927936 % 256, n / 281474976710656 % 256,
   n / 1099511627776 % 256, n / 4294967296 % 256,
   n / 16777216 % 256, n / 65536 % 256, n / 256 % 256, n % 256]

/-- The SHA-256 padding: a 0x80 byte, zeros to 56 mod 64, and the bit length. -/
def shaPad (msg : List Nat) : List Nat :=
  msg ++ 0x80 :: (List.replicate ((119 - msg.length % 64) % 64) 0 ++ lenBE8 (8 * msg.length))

/-- Serialize the final hash value, big-endian per word. -/
def hashToBytes (s : Hash8) : List Nat :=
  [s.a / 16777216 % 256, s.a / 65536 % 256, s.a / 256 % 256, s.a % 256,
   s.b / 16777216 % 256, s.b / 65536 % 256, s.b / 256 % 256, s.b % 256,
   s.c / 16777216 % 256, s.c / 65536 % 256, s.c / 256 % 256, s.c % 256,
   s.d / 16777216 % 256, s.d / 65536 % 256, s.d / 256 % 256, s.d % 256,
   s.e / 16777216 % 256, s.e / 65536 % 256, s.e / 256 % 256, s.e % 256,
   s.f / 16777216 % 256, s.f / 65536 % 256, s.f / 256 % 256, s.f % 256,
   s.g / 16777216 % 256, s.g / 65536 % 256, s.g / 256 % 256, s.g % 256,
   s.h / 16777216 % 256, s.h / 65536 % 256, s.h / 256 % 256, s.h % 256]

/-- The SHA-256 of a byte list (Go sha256.Sum256). -/
def sha256 (msg : List Nat) : List Nat :=
  hashToBytes ((chunks64 (shaPad msg)).foldl shaCompress shaH0)

/-! The obfuscation codec of the source: NewObfuscator
(part_001 lines 352-387). -/

/-- Which stream-cipher construction a cipher state uses.  The source calls
chacha20.NewUnauthenticatedCipher; the specification's normative choice is
AES-256-CTR. -/
inductive CipherKind where
  | chacha20
  | aes256ctr
deriving DecidableEq, Repr

/-- The Obfuscator state (part_001 lines 144-151), with the construction
used for its encoder and decoder streams recorded explicitly. -/
structure Obfuscator where
  encryptKey : List Nat
  encryptIV : List Nat
  decryptKey : List Nat
  decryptIV : List Nat
  kind : CipherKind
  nonceBytes : Nat
deriving DecidableEq, Repr

/-- The failure case of NewObfuscator. -/
inductive ObfErr where
  | initDataTooShort
deriving DecidableEq, Repr

/-- NewObfuscator (part_001 lines 352-387).  keyMaterial is
initData[0:32] with secret.Key at offsets 32..48 and initData[48:64] at
offsets 48..64; both directions share keyMaterial[8:40] as key and
keyMaterial[40:56] as IV, and the streams are ChaCha20 over the first 12 IV
bytes.  secret.Key is a 16-byte array in the source, hence the take 16. -/
def newObfuscator (secret : Secret) (initData : List Nat) : Except ObfErr Obfuscator :=
  if initData.length < 64 then .error .initDataTooShort
  else
    let keyMaterial := initData.take 32 ++ secret.key.take 16 ++ (initData.drop 48).take 16
    .ok { encryptKey := (keyMaterial.drop 8).take 32
          , encryptIV := (keyMaterial.drop 40).take 16
          , decryptKey := (keyMaterial.drop 8).take 32
          , decryptIV := (keyMaterial.drop 40).take 16
          , kind := .chacha20
          , nonceBytes := 12 }

/-! Handshake processing: processHandshake (part_001 lines 610-640). -/

/-- Transport kinds (part_001 lines 115-122). -/
inductive TransportType where
  | abridged
  | intermediate
  | padded
  | full
deriving DecidableEq, Repr

/-- The bytes processHandshake forwards upstream, with their provenance.
createMTProtoHandshake (lines 642-653) emits the 0xdddddddd tag followed by
60 bytes from crypto/rand, passed explicitly here; the default branch
(lines 637-639) hands the handshake to processObfuscatedHandshake, which
decrypts it with the obfuscator derived from the configured secret when the
secret is Secured or FakeTLS and otherwise copies it; that choice is kept
symbolic as the pair of inputs it is a pure function of. -/
inductive ProcessedHandshake where
  | passthrough (bytes : List Nat)
  | freshPadded (randomTail : List Nat)
  | deobfuscated (secret : Secret) (bytes : List Nat)
deriving DecidableEq, Repr

/-- The only failure case of processHandshake is a short handshake; the
source has no obvious-marker rejection. -/
inductive HandshakeErr where
  | tooShort
deriving DecidableEq, Repr

/-- Little-endian uint32 of the first four bytes. -/
def u32le (l : List Nat) : Nat :=
  l.getD 0 0 % 256 + 256 * (l.getD 1 0 % 256) +
    65536 * (l.getD 2 0 % 256) + 16777216 * (l.getD 3 0 % 256)

/-- processHandshake (part_001 lines 610-640): FakeTLS detection on
byte 0 = 0x16 with version 0x0303, then direct transports 0xef,
0xeeeeeeee, 0xdddddddd, else the obfuscated default. -/
def processHandshake (secret : Secret) (handshake : List Nat)
    (tlsRandomTail : List Nat) : Except HandshakeErr (TransportType × ProcessedHandshake) :=
  if handshake.length < 64 then .error .tooShort
  else if handshake.getD 0 0 = 0x16 ∧ 3 ≤ handshake.length ∧
      (handshake.getD 1 0 % 256) * 256 + handshake.getD 2 0 % 256 = 0x0303 then
    .ok (.padded, .freshPadded tlsRandomTail)
  else if handshake.getD 0 0 = 0xef then
    .ok (.abridged, .passthrough handshake)
  else if u32le handshake = 0xeeeeeeee then
    .ok (.intermediate, .passthrough handshake)
  else if u32le handshake = 0xdddddddd then
    .ok (.padded, .passthrough handshake)
  else
    .ok (.padded, .deobfuscated secret handshake)

/-! FakeTLS record framing in the relay: wrapInTLS and unwrapFromTLS
(part_001 lines 753-772) and the per-chunk transform of relayData
(lines 705-751). -/

/-- Relay directions (the direction strings of relayData). -/
inductive Direction where
  | clientToTelegram
  | telegramToClient
deriving DecidableEq, Repr

/-- The relay read buffer size: BufferSize = 64*1024 (part_001 line 43). -/
def relayBufferSize : Nat := 65536

/-- wrapInTLS (part_001 lines 753-761): one ApplicationData record whose
two length bytes are uint16(len(data)), i.e. the length modulo 2^16. -/
def wrapInTLS (data : List Nat) : List Nat :=
  0x17 :: 0x03 :: 0x03 :: (data.length % 65536 / 256) :: (data.length % 256) :: data

/-- unwrapFromTLS (part_001 lines 763-772): strips one ApplicationData
record when the whole record is present, otherwise returns the data
unchanged (no buffering of partial records). -/
def unwrapFromTLS (data : List Nat) : List Nat :=
  if 5 ≤ data.length ∧ data.getD 0 0 = 0x17 then
    let recordLen := (data.getD 3 0 % 256) * 256 + data.getD 4 0 % 256
    if 5 + recordLen ≤ data.length then (data.drop 5).take recordLen else data
  else data

/-- The per-chunk transform relayData applies (part_001 lines 720-729):
FakeTLS sessions wrap peer-to-client chunks and unwrap client-to-peer
chunks; other sessions relay chunks unchanged. -/
def relayTransform (secretType : SecretType) (dir : Direction) (chunk : List Nat) : List Nat :=
  if secretType = .fakeTLS then
    match dir with
    | .telegramToClient => wrapInTLS chunk
    | .clientToTelegram => unwrapFromTLS chunk
  else chunk

/-! The anti-replay cache: AntiReplayCache.CheckAndAdd
(part_001 lines 211-246).  The Go map is modelled as an association list
whose order stands for the map's iteration order; timestamps are integers
(nanoseconds since some origin). -/

/-- Cache contents: fingerprint (a hex character string) paired with the
insertion timestamp. -/
abbrev ReplayCache := List (List Char × Int)

/-- The cache key (line 212-213): lowercase hex of the first 16 bytes of
the SHA-256 of the handshake data. -/
def fingerprint (data : List Nat) : List Char :=
  hexEncode ((sha256 data).take 16)

/-- Go map lookup. -/
def cacheLookup (c : ReplayCache) (k : List Char) : Option Int :=
  match c.find? (fun e => decide (e.1 = k)) with
  | some e => some e.2
  | none => none

/-- Go map assignment: overwrite an existing key in place, else append. -/
def cacheInsert (c : ReplayCache) (k : List Char) (t : Int) : ReplayCache :=
  if c.any (fun e => decide (e.1 = k)) then
    c.map (fun e => if e.1 = k then (k, t) else e)
  else c ++ [(k, t)]

/-- Go map delete. -/
def cacheErase (c : ReplayCache) (k : List Char) : ReplayCache :=
  c.filter (fun e => decide (e.1 ≠ k))

/-- One iteration of the oldest-entry scan of CheckAndAdd (lines 234-239):
keep any entry whose timestamp is strictly before the best so far. -/
def oldestStep (acc : Int × List Char) (e : List Char × Int) : Int × List Char :=
  if e.2 < acc.1 then (e.2, e.1) else acc

/-- The oldest-entry scan of CheckAndAdd (lines 231-239), starting from
(now, empty key). -/
def findOldest (now : Int) (c : ReplayCache) : Int × List Char :=
  c.foldl oldestStep (now, [])

/-- The insertion half of CheckAndAdd (lines 227-243): store the key at the
current time and, when the size then exceeds maxSize, delete the oldest
strictly-earlier entry when the scan found one. -/
def insertAndMaybeEvict (maxSize : Nat) (c : ReplayCache) (key : List Char)
    (now : Int) : ReplayCache :=
  let c1 := cacheInsert c key now
  if maxSize < c1.length then
    let best := findOldest now c1
    if best.2 ≠ [] then cacheErase c1 best.2 else c1
  else c1

/-- CheckAndAdd (part_001 lines 211-246): the key is the fingerprint of
the data; a hit younger than the TTL is a replay (false) and leaves the
cache untouched; otherwise the key is (re)inserted at the current time with
the possible eviction. -/
def checkAndAdd (maxSize : Nat) (ttl : Int) (c : ReplayCache) (data : List Nat)
    (now : Int) : Bool × ReplayCache :=
  match cacheLookup c (fingerprint data) with
  | some t =>
    if now - t < ttl then (false, c)
    else (true, insertAndMaybeEvict maxSize c (fingerprint data) now)
  | none => (true, insertAndMaybeEvict maxSize c (fingerprint data) now)

/-- Fold a sequence of CheckAndAdd calls, keeping the cache. -/
def runCheckAndAdd (maxSize : Nat) (ttl : Int) (ops : List (List Nat × Int))
    (c : ReplayCache) : ReplayCache :=
  ops.foldl (fun acc op => (checkAndAdd maxSize ttl acc op.1 op.2).2) c

/-- The cache size the proxy is constructed with
(NewAntiReplayCache(100000, ...), part_001 line 166). -/
def antiReplayMaxSize : Nat := 100000

/-- The cache TTL the proxy is constructed with: 5*time.Minute in
nanoseconds (part_001 line 166). -/
def antiReplayTTL : Int := 300000000000

/-! The peer connection pool: GetConnection and createDCConnection
(part_001 lines 265-328) and ReturnConnection (lines 330-350). -/

/-- A pooled TCP socket, as far as the probe can observe it: the bytes its
receive queue already holds, and whether the peer has closed. -/
structure PoolSocket where
  pending : List Nat
  atEOF : Bool
deriving DecidableEq, Repr

/-- Outcomes of a socket read. -/
inductive ReadErr where
  | timeout
  | eof
deriving DecidableEq, Repr

/-- The health probe of GetConnection (lines 277-281): a 1-byte read under
a 1 ms deadline.  Buffered data is returned (and consumed) first; an empty
queue lets the deadline expire; a closed peer yields EOF. -/
def probeRead (s : PoolSocket) : Except ReadErr (Nat × PoolSocket) :=
  match s.pending with
  | b :: rest => .ok (b, { s with pending := rest })
  | [] => if s.atEOF then .error .eof else .error .timeout

/-- What GetConnection does with the idle queue (lines 275-293): reuse the
popped socket when the probe read succeeds (the probed byte cannot be put
back), otherwise close it and dial, and dial fresh when the queue is
empty. -/
inductive CheckoutResult where
  | reused (s : PoolSocket) (remaining : List PoolSocket)
  | dialedAfterDiscard (remaining : List PoolSocket)
  | dialedFresh
deriving DecidableEq, Repr

/-- GetConnection's checkout decision (part_001 lines 265-294). -/
def getConnection (idle : List PoolSocket) : CheckoutResult :=
  match idle with
  | [] => .dialedFresh
  | s :: rest =>
    match probeRead s with
    | .ok (_, s1) => .reused s1 rest
    | .error _ => .dialedAfterDiscard rest

/-- Networks createDCConnection dials over. -/
inductive NetProto where
  | tcp6
  | tcp4
deriving DecidableEq, Repr

/-- A datacenter table entry (part_001 lines 56-62). -/
structure DCInfo where
  id : Nat
  ipv4 : String
  ipv6 : String
  location : String
  priority : Nat
deriving DecidableEq, Repr

/-- The dial attempts of createDCConnection (part_001 lines 305-317), in
order: tcp6 to the IPv6 address when one exists, with a tcp4 fallback when
an IPv4 address exists; otherwise tcp4 alone. -/
def dialAttempts (dc : DCInfo) : List (NetProto × String) :=
  if dc.ipv6 ≠ "" then
    (NetProto.tcp6, dc.ipv6) :: (if dc.ipv4 ≠ "" then [(NetProto.tcp4, dc.ipv4)] else [])
  else if dc.ipv4 ≠ "" then [(NetProto.tcp4, dc.ipv4)]
  else []

/-- Every dial uses net.DialTimeout with 10*time.Second
(part_001 lines 310-316). -/
def dialTimeoutSeconds : Nat := 10

/-- One datacenter's pool (part_001 lines 136-142): the idle channel, its
capacity, and the active count. -/
structure DCPool where
  idle : List PoolSocket
  capacity : Nat
  active : Int
deriving DecidableEq, Repr

/-- ReturnConnection (part_001 lines 330-350): push the socket into the
idle channel when there is room; otherwise close it and decrement the
active count.  The Bool reports whether the socket was closed. -/
def returnConnection (p : DCPool) (conn : PoolSocket) : DCPool × Bool :=
  if p.idle.length < p.capacity then ({ p with idle := p.idle ++ [conn] }, false)
  else ({ p with active := p.active - 1 }, true)

/-- The deferred teardown of handleConnection (part_001 lines 512 and
565-567): the client socket is closed, and the telegram socket is handed to
ReturnConnection.  Result: (pool afterwards, client closed, peer closed). -/
def sessionTeardown (p : DCPool) (peer : PoolSocket) : DCPool × Bool × Bool :=
  let r := returnConnection p peer
  (r.1, true, r.2)

/-! Datacenter choice: the TelegramDatacenters table (part_001 lines
48-54) and chooseBestDatacenter (lines 671-684). -/

/-- The DC5 (Singapore) table entry, the unique priority-1 datacenter
(part_001 line 53). -/
def dc5Info : DCInfo :=
  { id := 5, ipv4 := "91.108.56.130", ipv6 := "2001:b28:f23f:f005::a",
    location := "SIN", priority := 1 }

/-- The static datacenter table, listed in key order; the Go map's
iteration order is arbitrary, so theorems quantify over permutations. -/
def telegramDatacenters : List DCInfo :=
  [ { id := 1, ipv4 := "149.154.175.53", ipv6 := "2001:b28:f23d:f001::a",
      location := "MIA", priority := 3 },
    { id := 2, ipv4 := "149.154.167.51", ipv6 := "2001:67c:4e8:f002::a",
      location := "AMS", priority := 2 },
    { id := 3, ipv4 := "149.154.175.100", ipv6 := "2001:b28:f23d:f003::a",
      location := "MIA", priority := 3 },
    { id := 4, ipv4 := "149.154.167.91", ipv6 := "2001:67c:4e8:f004::a",
      location := "AMS", priority := 2 },
    dc5Info ]

/-- One iteration of chooseBestDatacenter's scan (part_001 lines 676-681):
any strictly smaller priority replaces the best (priority, id) pair. -/
def chooseStep (best : Nat × Nat) (dc : DCInfo) : Nat × Nat :=
  if dc.priority < best.1 then (dc.priority, dc.id) else best

/-- chooseBestDatacenter's scan (part_001 lines 671-684) over a given
iteration order: best priority starts at 999, best DC at 5. -/
def chooseBestDatacenterOver (dcs : List DCInfo) : Nat :=
  (dcs.foldl chooseStep (999, 5)).2

/-- chooseBestDatacenter on the table in key order. -/
def chooseBestDatacenter : Nat := chooseBestDatacenterOver telegramDatacenters

/-- The datacenter a session dials: handleConnection (line 556) calls
chooseBestDatacenter with no reference to the handshake bytes. -/
def sessionDatacenter (_handshake : List Nat) : Nat := chooseBestDatacenter

-- Sanity examples for the hex codec and the parser.
example : hexDecode ['e', 'e', '0', 'f'] = some [0xee, 0x0f] := by decide
example : hexEncode [0xee, 0x0f] = ['e', 'e', '0', 'f'] := by decide
example :
    parseSecret (hexEncode (0xee :: List.replicate 16 7)) =
      .ok { key := List.replicate 16 7, host := [], type := .fakeTLS } := by rfl

-- SHA-256 against the FIPS 180-4 test vectors for the empty message and
-- for the three bytes of abc.
example :
    sha256 [] =
      [0xe3, 0xb0, 0xc4, 0x42, 0x98, 0xfc, 0x1c, 0x14, 0x9a, 0xfb, 0xf4, 0xc8,
       0x99, 0x6f, 0xb9, 0x24, 0x27, 0xae, 0x41, 0xe4, 0x64, 0x9b, 0x93, 0x4c,
       0xa4, 0x95, 0x99, 0x1b, 0x78, 0x52, 0xb8, 0x55] := by rfl
example :
    sha256 [97, 98, 99] =
      [0xba, 0x78, 0x16, 0xbf, 0x8f, 0x01, 0xcf, 0xea, 0x41, 0x41, 0x40, 0xde,
       0x5d, 0xae, 0x22, 0x23, 0xb0, 0x03, 0x61, 0xa3, 0x96, 0x17, 0x7a, 0x9c,
       0xb4, 0x10, 0xff, 0x61, 0xf2, 0x00, 0x15, 0xad] := by rfl

/-! Claim theorems. -/

/-- The concrete handshake used to exhibit the key-derivation divergence:
bytes 0, 1, ..., 63. -/
def c1Handshake : List Nat := List.range 64

/-- The concrete secret used to exhibit the key-derivation divergence: a
Simple secret whose 16 key bytes are all 0xaa. -/
def c1Secret : Secret := { key := List.replicate 16 0xaa, host := [], type := .simple }

/-- Claim C1: the specification says derive mixes each 32-byte stream key
as SHA-256(key with the 16 secret-key bytes appended), leaves the 16-byte
IVs (handshake bytes 40..56) unchanged, and builds two AES-256-CTR states.
The source's NewObfuscator does none of this: on the handshake
0,1,...,63 with an all-0xaa secret key, the derived IV is the secret-key
bytes 8..16 followed by handshake bytes 48..56 rather than the unchanged
handshake bytes 40..56, the derived key is not the SHA-256 mix, and the
cipher states are ChaCha20, not AES-256-CTR. -/
theorem newObfuscator_contradicts_sha_aes_derivation :
    (newObfuscator c1Secret c1Handshake).toOption.map Obfuscator.encryptIV =
      some (List.replicate 8 0xaa ++ [48, 49, 50, 51, 52, 53, 54, 55]) ∧
    List.replicate 8 0xaa ++ [48, 49, 50, 51, 52, 53, 54, 55] ≠
      (c1Handshake.drop 40).take 16 ∧
    (newObfuscator c1Secret c1Handshake).toOption.map Obfuscator.kind =
      some CipherKind.chacha20 ∧
    (newObfuscator c1Secret c1Handshake).toOption.map Obfuscator.encryptKey ≠
      some (sha256 ((c1Handshake.drop 8).take 32 ++ c1Secret.key)) := by
  refine ⟨by rfl, by decide, by rfl, by decide⟩

/-- Claim C3: the specification rejects handshakes whose first 8 bytes are
an obvious marker, in particular 0xef repeated, with an obvious_marker
error.  The source's processHandshake accepts a handshake of 64 0xef bytes
and classifies it as Abridged transport, forwarding it unchanged; its only
error is a short handshake. -/
theorem processHandshake_accepts_obvious_marker :
    processHandshake c1Secret (List.replicate 64 0xef) [] =
      .ok (.abridged, .passthrough (List.replicate 64 0xef)) := by
  rfl

/-- Claim C4: the specification caps FakeTLS ApplicationData payloads at
16 KiB and buffers partial records.  The source's wrapInTLS emits one
record for the whole chunk (relayData reads up to 64 KiB at once): a
17000-byte chunk becomes a single record whose declared length is 17000 and
whose payload is the whole chunk, exceeding 16384; and unwrapFromTLS
returns a partial record (header declaring 10 payload bytes with only 3
present) unchanged instead of buffering it. -/
theorem relayTransform_violates_record_cap :
    relayTransform .fakeTLS .telegramToClient (List.replicate 17000 0) =
      0x17 :: 0x03 :: 0x03 :: 66 :: 104 :: List.replicate 17000 0 ∧
    16384 < (List.replicate 17000 (0 : Nat)).length ∧
    17000 ≤ relayBufferSize ∧
    relayTransform .fakeTLS .clientToTelegram [0x17, 0x03, 0x03, 0x00, 0x0a, 1, 2, 3] =
      [0x17, 0x03, 0x03, 0x00, 0x0a, 1, 2, 3] := by
  refine ⟨?_, ?_, by decide, by rfl⟩
  · show wrapInTLS (List.replicate 17000 0) = _
    rw [wrapInTLS, List.length_replicate]
  · rw [List.length_replicate]
    norm_num

/-- Claim C5: the specification classifies an idle socket with no bytes
available as healthy and returns it unconsumed.  The source's GetConnection
does the opposite: the 1-byte probe read times out on a quiet healthy
socket, which is then discarded in favour of a fresh dial, while a socket
that does have bytes is reused with one byte consumed.  The EOF and dial
parts of the claim match the source: an EOF socket is discarded and dialed
over, fresh dials try tcp6 first with a tcp4 fallback, under a 10 s
timeout. -/
theorem getConnection_discards_quiet_socket :
    getConnection [{ pending := [], atEOF := false }] = .dialedAfterDiscard [] ∧
    getConnection [{ pending := [7], atEOF := false }] =
      .reused { pending := [], atEOF := false } [] ∧
    getConnection [{ pending := [], atEOF := true }] = .dialedAfterDiscard [] ∧
    (dialAttempts dc5Info).map Prod.fst = [NetProto.tcp6, NetProto.tcp4] ∧
    dialTimeoutSeconds = 10 := by
  refine ⟨by rfl, by rfl, by rfl, by rfl, by rfl⟩

/-- Claim C6: the specification says session teardown closes both sockets
and never returns the peer socket to the pool, leaving the idle set
unchanged.  The source's handleConnection defers ReturnConnection on the
telegram socket: with room in the pool, teardown grows the idle set by that
socket and does not close it. -/
theorem sessionTeardown_returns_peer_to_pool :
    (sessionTeardown { idle := [], capacity := 10, active := 1 }
        { pending := [], atEOF := false }).1.idle =
      [{ pending := [], atEOF := false }] ∧
    (sessionTeardown { idle := [], capacity := 10, active := 1 }
        { pending := [], atEOF := false }).2.2 = false := by
  exact ⟨by rfl, by rfl⟩

/-- A first CheckAndAdd call on the empty cache inserts the fingerprint at
the given time and reports fresh. -/
theorem checkAndAdd_empty (h : List Nat) (t0 : Int) :
    checkAndAdd antiReplayMaxSize antiReplayTTL [] h t0 = (true, [(fingerprint h, t0)]) := by
  simp [checkAndAdd, cacheLookup, insertAndMaybeEvict, cacheInsert, antiReplayMaxSize]

/-- Claim C2: a second CheckAndAdd of the same handshake within the TTL
reports a replay and leaves the cache untouched, and a third call more than
the TTL after the first insertion reports fresh again: the intervening
replay did not refresh the stored timestamp. -/
theorem checkAndAdd_replay_window (h : List Nat) (t0 t1 t2 : Int)
    (_hlen : h.length = 64) (h1 : t1 - t0 < antiReplayTTL)
    (h2 : antiReplayTTL < t2 - t0) :
    (checkAndAdd antiReplayMaxSize antiReplayTTL [] h t0).1 = true ∧
    (checkAndAdd antiReplayMaxSize antiReplayTTL
      (checkAndAdd antiReplayMaxSize antiReplayTTL [] h t0).2 h t1).1 = false ∧
    (checkAndAdd antiReplayMaxSize antiReplayTTL
      (checkAndAdd antiReplayMaxSize antiReplayTTL
        (checkAndAdd antiReplayMaxSize antiReplayTTL [] h t0).2 h t1).2 h t2).1 = true := by
  have e0 := checkAndAdd_empty h t0
  have e1 : checkAndAdd antiReplayMaxSize antiReplayTTL [(fingerprint h, t0)] h t1 =
      (false, [(fingerprint h, t0)]) := by
    simp [checkAndAdd, cacheLookup, List.find?, h1]
  have e2 : (checkAndAdd antiReplayMaxSize antiReplayTTL [(fingerprint h, t0)] h t2).1 =
      true := by
    have hnot : ¬ (t2 - t0 < antiReplayTTL) := not_lt.mpr (le_of_lt h2)
    simp [checkAndAdd, cacheLookup, cacheInsert, List.find?, hnot, antiReplayMaxSize]
  rw [e0]
  rw [e1]
  exact ⟨rfl, rfl, e2⟩

/-- Witness for claim C2 at the all-zero 64-byte handshake, first seen at
time 0, replayed at 1 ns, and repeated just past the 5-minute TTL. -/
theorem checkAndAdd_replay_window_witness :
    ((List.replicate 64 0 : List Nat).length = 64 ∧
      (1 : Int) - 0 < antiReplayTTL ∧ antiReplayTTL < antiReplayTTL + 1 - 0) ∧
    ((checkAndAdd antiReplayMaxSize antiReplayTTL [] (List.replicate 64 0) 0).1 = true ∧
      (checkAndAdd antiReplayMaxSize antiReplayTTL
        (checkAndAdd antiReplayMaxSize antiReplayTTL [] (List.replicate 64 0) 0).2
        (List.replicate 64 0) 1).1 = false ∧
      (checkAndAdd antiReplayMaxSize antiReplayTTL
        (checkAndAdd antiReplayMaxSize antiReplayTTL
          (checkAndAdd antiReplayMaxSize antiReplayTTL [] (List.replicate 64 0) 0).2
          (List.replicate 64 0) 1).2 (List.replicate 64 0) (antiReplayTTL + 1)).1 = true) :=
  ⟨⟨by decide, by decide, by decide⟩,
    checkAndAdd_replay_window (List.replicate 64 0) 0 1 (antiReplayTTL + 1)
      (by decide) (by decide) (by decide)⟩

/-- The fold of chooseBestDatacenter keeps its accumulator invariant: the
best priority stays at least 1, and a best priority of exactly 1 can only
name DC 5, provided every scanned entry satisfies the same. -/
theorem chooseFold_inv (dcs : List DCInfo) (acc : Nat × Nat)
    (hdcs : ∀ dc ∈ dcs, 1 ≤ dc.priority ∧ (dc.priority = 1 → dc.id = 5))
    (hacc : 1 ≤ acc.1 ∧ (acc.1 = 1 → acc.2 = 5)) :
    1 ≤ (dcs.foldl chooseStep acc).1 ∧
      ((dcs.foldl chooseStep acc).1 = 1 → (dcs.foldl chooseStep acc).2 = 5) := by
  induction dcs generalizing acc with
  | nil => exact hacc
  | cons d rest ih =>
    simp only [List.foldl_cons]
    refine ih (chooseStep acc d) (fun dc hdc => hdcs dc (List.mem_cons_of_mem _ hdc)) ?_
    obtain ⟨hd1, hd5⟩ := hdcs d (List.mem_cons_self _ _)
    by_cases hlt : d.priority < acc.1
    · simpa [chooseStep, hlt] using ⟨hd1, hd5⟩
    · simpa [chooseStep, hlt] using hacc

/-- The fold of chooseBestDatacenter reaches best priority 1 whenever some
scanned entry has priority 1 (or the accumulator already does), given every
priority is at least 1. -/
theorem chooseFold_one (dcs : List DCInfo) (acc : Nat × Nat)
    (hdcs : ∀ dc ∈ dcs, 1 ≤ dc.priority) (hacc : 1 ≤ acc.1)
    (hex : acc.1 = 1 ∨ ∃ dc ∈ dcs, dc.priority = 1) :
    (dcs.foldl chooseStep acc).1 = 1 := by
  induction dcs generalizing acc with
  | nil =>
    rcases hex with h | ⟨dc, hdc, _⟩
    · exact h
    · cases hdc
  | cons d rest ih =>
    simp only [List.foldl_cons]
    have hd1 : 1 ≤ d.priority := hdcs d (List.mem_cons_self _ _)
    have hacc2 : 1 ≤ (chooseStep acc d).1 := by
      by_cases hlt : d.priority < acc.1
      · simpa [chooseStep, hlt] using hd1
      · simpa [chooseStep, hlt] using hacc
    refine ih (chooseStep acc d) (fun dc hdc => hdcs dc (List.mem_cons_of_mem _ hdc)) hacc2 ?_
    rcases hex with h | ⟨dc, hdc, hp⟩
    · left
      by_cases hlt : d.priority < acc.1
      · rw [h] at hlt
        omega
      · simpa [chooseStep, hlt] using h
    · rcases List.mem_cons.mp hdc with rfl | hdc2
      · left
        by_cases hlt : dc.priority < acc.1
        · simpa [chooseStep, hlt] using hp
        · have : acc.1 = 1 := by omega
          simpa [chooseStep, hlt] using this
      · exact Or.inr ⟨dc, hdc2, hp⟩

/-- Claim C10: whatever iteration order the Go map produces,
chooseBestDatacenter returns 5 (the unique priority-1 entry), and the
datacenter a session dials is the same for any two client handshakes: the
DC id encoded in the handshake never influences the upstream choice. -/
theorem sessionDatacenter_handshake_independent :
    (∀ order : List DCInfo, order.Perm telegramDatacenters →
      chooseBestDatacenterOver order = 5) ∧
    (∀ h1 h2 : List Nat, sessionDatacenter h1 = sessionDatacenter h2) ∧
    (∀ h : List Nat, sessionDatacenter h = 5) := by
  have htab : ∀ dc ∈ telegramDatacenters, 1 ≤ dc.priority ∧ (dc.priority = 1 → dc.id = 5) := by
    decide
  have hmain : ∀ order : List DCInfo, order.Perm telegramDatacenters →
      chooseBestDatacenterOver order = 5 := by
    intro order hperm
    have hall : ∀ dc ∈ order, 1 ≤ dc.priority ∧ (dc.priority = 1 → dc.id = 5) :=
      fun dc hdc => htab dc (hperm.subset hdc)
    have hdc5 : dc5Info ∈ order := hperm.mem_iff.mpr (by decide)
    have hone := chooseFold_one order (999, 5) (fun dc hdc => (hall dc hdc).1)
      (by norm_num) (Or.inr ⟨dc5Info, hdc5, by decide⟩)
    have hinv := chooseFold_inv order (999, 5) hall ⟨by norm_num, by omega⟩
    exact hinv.2 hone
  exact ⟨hmain, fun h1 h2 => rfl, fun h => hmain telegramDatacenters (List.Perm.refl _)⟩

/-- Witness for claim C10 at the table's own order and two concrete
handshakes. -/
theorem sessionDatacenter_handshake_independent_witness :
    chooseBestDatacenterOver telegramDatacenters = 5 ∧
    sessionDatacenter [] = sessionDatacenter [0xef] ∧
    sessionDatacenter [] = 5 :=
  ⟨sessionDatacenter_handshake_independent.1 telegramDatacenters (List.Perm.refl _),
   sessionDatacenter_handshake_independent.2.1 [] [0xef],
   sessionDatacenter_handshake_independent.2.2 []⟩

/-- Round trip of one hex digit. -/
theorem hexDigit_roundtrip : ∀ n : Fin 16, hexDigitVal (hexDigitChar n.val) = some n.val := by
  decide

/-- hexDecode undoes hexEncode on well-formed byte lists. -/
theorem hexDecode_hexEncode (bs : List Nat) (hb : ∀ b ∈ bs, b < 256) :
    hexDecode (hexEncode bs) = some bs := by
  induction bs with
  | nil => rfl
  | cons b rest ih =>
    have hblt : b < 256 := hb b (List.mem_cons_self _ _)
    have hmod : b % 256 = b := Nat.mod_eq_of_lt hblt
    have hdiv : b / 16 < 16 := Nat.div_lt_of_lt_mul (by omega)
    have hhi : hexDigitVal (hexDigitChar (b % 256 / 16)) = some (b / 16) := by
      rw [hmod]
      exact hexDigit_roundtrip ⟨b / 16, hdiv⟩
    have hlo : hexDigitVal (hexDigitChar (b % 16)) = some (b % 16) :=
      hexDigit_roundtrip ⟨b % 16, Nat.mod_lt _ (by omega)⟩
    have htail : hexDecode (hexEncode rest) = some rest :=
      ih (fun x hx => hb x (List.mem_cons_of_mem _ hx))
    simp only [hexEncode, hexDecode, hhi, hlo, htail]
    rw [Nat.div_add_mod b 16]

/-- hexEncode doubles the length. -/
theorem hexEncode_length (bs : List Nat) : (hexEncode bs).length = 2 * bs.length := by
  induction bs with
  | nil => rfl
  | cons b rest ih => simp [hexEncode, ih]; omega

/-- hexEncode distributes over append. -/
theorem hexEncode_append (xs ys : List Nat) :
    hexEncode (xs ++ ys) = hexEncode xs ++ hexEncode ys := by
  induction xs with
  | nil => rfl
  | cons b rest ih => simp [hexEncode, ih]

/-- Full behaviour of parseSecret on the hex encoding of a well-formed
byte list: decoding the encoding always succeeds, the hex string is
shorter than 32 characters exactly when the data is shorter than 16 bytes,
and the tag branches require strictly more than 16 decoded bytes. -/
theorem parseSecretEncodeSpec (data : List Nat) (hb : ∀ b ∈ data, b < 256) :
    parseSecret (hexEncode data) =
      if 16 ≤ data.length then
        if 16 < data.length ∧ data.headD 0 = 0xee then
          .ok { key := (data.drop 1).take 16, host := data.drop 17, type := .fakeTLS }
        else if 16 < data.length ∧ data.headD 0 = 0xdd then
          .ok { key := (data.drop 1).take 16, host := [], type := .secured }
        else .ok { key := data.take 16, host := [], type := .simple }
      else .error .tooShort := by
  have hdec := hexDecode_hexEncode data hb
  have hlen2 := hexEncode_length data
  by_cases h16 : 16 ≤ data.length
  · have hns : ¬ (hexEncode data).length < 32 := by omega
    have hnd : ¬ data.length < 16 := by omega
    simp only [parseSecret, hns, if_false, hdec, hnd, h16, if_true]
  · have hs : (hexEncode data).length < 32 := by omega
    simp only [parseSecret, hs, if_true, h16, if_false]

/-- The 32-character hex string whose decode is 16 bytes beginning 0xee. -/
def c7Hex : List Char := 'e' :: 'e' :: List.replicate 30 '0'

/-- Counterexample to claim C7: a hex secret decoding to exactly 16 bytes
whose first byte is 0xee is not rejected as a too-short FakeTLS secret (the
claim requires failure below 17 bytes); parseSecret accepts it as a Simple
secret whose key retains the 0xee byte. -/
theorem parseSecret_simple_on_16byte_ee :
    hexDecode c7Hex = some (0xee :: List.replicate 15 0) ∧
    (0xee :: (List.replicate 15 0 : List Nat)).length = 16 ∧
    parseSecret c7Hex =
      .ok { key := 0xee :: List.replicate 15 0, host := [], type := .simple } := by
  refine ⟨by decide, by rfl, by rfl⟩

/-- Claim C7 as amended: on well-formed hex input, parseSecret returns
FakeTLS with key bytes 1..17 and host bytes 17.. only when the first
decoded byte is 0xee and the decoded length exceeds 16; Secured likewise
for 0xdd; every other decode of at least 16 bytes (including 16-byte
decodes beginning 0xee or 0xdd) yields Simple with key bytes 0..16; and it
fails exactly when the decode is shorter than 16 bytes. -/
theorem parseSecret_amended (data : List Nat) (hb : ∀ b ∈ data, b < 256) :
    parseSecret (hexEncode data) =
      if 16 ≤ data.length then
        if 16 < data.length ∧ data.headD 0 = 0xee then
          .ok { key := (data.drop 1).take 16, host := data.drop 17, type := .fakeTLS }
        else if 16 < data.length ∧ data.headD 0 = 0xdd then
          .ok { key := (data.drop 1).take 16, host := [], type := .secured }
        else .ok { key := data.take 16, host := [], type := .simple }
      else .error .tooShort :=
  parseSecretEncodeSpec data hb

/-- Witness for the amended claim C7 at a 17-byte Secured-style decode. -/
theorem parseSecret_amended_witness :
    (∀ b ∈ (0xdd :: List.replicate 16 9 : List Nat), b < 256) ∧
    parseSecret (hexEncode (0xdd :: List.replicate 16 9)) =
      (if 16 ≤ (0xdd :: (List.replicate 16 9 : List Nat)).length then
        if 16 < (0xdd :: (List.replicate 16 9 : List Nat)).length ∧
            (0xdd :: (List.replicate 16 9 : List Nat)).headD 0 = 0xee then
          .ok { key := ((0xdd :: (List.replicate 16 9 : List Nat)).drop 1).take 16,
                host := (0xdd :: (List.replicate 16 9 : List Nat)).drop 17, type := .fakeTLS }
        else if 16 < (0xdd :: (List.replicate 16 9 : List Nat)).length ∧
            (0xdd :: (List.replicate 16 9 : List Nat)).headD 0 = 0xdd then
          .ok { key := ((0xdd :: (List.replicate 16 9 : List Nat)).drop 1).take 16,
                host := [], type := .secured }
        else .ok { key := (0xdd :: (List.replicate 16 9 : List Nat)).take 16,
                   host := [], type := .simple }
      else .error .tooShort) :=
  ⟨by decide, parseSecret_amended (0xdd :: List.replicate 16 9) (by decide)⟩

/-- Claim C8: parsing the printed hex wire-form of a generated FakeTLS
secret returns the generated secret: parse(generate(host).hex()) ==
generate(host), for hosts of at most 255 bytes and the 16 random key bytes
drawn by generate. -/
theorem parseSecret_secretHexForm_roundtrip (host key : List Nat)
    (hklen : key.length = 16) (hkb : ∀ b ∈ key, b < 256)
    (_hhlen : host.length ≤ 255) (hhb : ∀ b ∈ host, b < 256) :
    parseSecret (secretHexForm (generateSecret host key)) = .ok (generateSecret host key) := by
  have hform : secretHexForm (generateSecret host key) = hexEncode (0xee :: (key ++ host)) := by
    have h1 : hexEncode (0xee :: (key ++ host)) = 'e' :: 'e' :: hexEncode (key ++ host) := rfl
    rw [h1, hexEncode_append]
    rfl
  have hb : ∀ b ∈ (0xee :: (key ++ host) : List Nat), b < 256 := by
    intro b hbmem
    rcases List.mem_cons.mp hbmem with rfl | hmem
    · omega
    · rcases List.mem_append.mp hmem with hk | hh
      · exact hkb b hk
      · exact hhb b hh
  rw [hform, parseSecretEncodeSpec (0xee :: (key ++ host)) hb]
  have hlen : (0xee :: (key ++ host) : List Nat).length = 17 + host.length := by
    simp [hklen]
    omega
  have h16 : 16 ≤ (0xee :: (key ++ host) : List Nat).length := by
    rw [hlen]
    omega
  have h16lt : 16 < (0xee :: (key ++ host) : List Nat).length ∧
      (0xee :: (key ++ host) : List Nat).headD 0 = 0xee := by
    refine ⟨?_, rfl⟩
    rw [hlen]
    omega
  rw [if_pos h16, if_pos h16lt]
  have hkey : ((0xee :: (key ++ host) : List Nat).drop 1).take 16 = key := by
    show (key ++ host).take 16 = key
    rw [← hklen, List.take_left]
  have hhost : (0xee :: (key ++ host) : List Nat).drop 17 = host := by
    show (key ++ host).drop 16 = host
    rw [← hklen, List.drop_left]
  rw [hkey, hhost]
  rfl

/-- Witness for claim C8 at host google.com and an all-0xab key. -/
theorem parseSecret_secretHexForm_roundtrip_witness :
    ((List.replicate 16 0xab : List Nat).length = 16 ∧
      (∀ b ∈ (List.replicate 16 0xab : List Nat), b < 256) ∧
      ([103, 111, 111, 103, 108, 101, 46, 99, 111, 109] : List Nat).length ≤ 255 ∧
      (∀ b ∈ ([103, 111, 111, 103, 108, 101, 46, 99, 111, 109] : List Nat), b < 256)) ∧
    parseSecret (secretHexForm
        (generateSecret [103, 111, 111, 103, 108, 101, 46, 99, 111, 109]
          (List.replicate 16 0xab))) =
      .ok (generateSecret [103, 111, 111, 103, 108, 101, 46, 99, 111, 109]
        (List.replicate 16 0xab)) :=
  ⟨⟨by decide, by decide, by decide, by decide⟩,
    parseSecret_secretHexForm_roundtrip [103, 111, 111, 103, 108, 101, 46, 99, 111, 109]
      (List.replicate 16 0xab) (by decide) (by decide) (by decide) (by decide)⟩

/-- The fingerprint is never the empty string: SHA-256 always yields 32
bytes, so the hex of its 16-byte prefix is 32 characters. -/
theorem fingerprint_ne_nil (data : List Nat) : fingerprint data ≠ [] :=
  List.cons_ne_nil _ _

/-- The oldest-entry fold either returns its accumulator or an entry of the
cache, never increases the best time, and bounds every entry's time from
below. -/
theorem oldestFold_spec (c : ReplayCache) (acc : Int × List Char) :
    (c.foldl oldestStep acc = acc ∨
      ((c.foldl oldestStep acc).2, (c.foldl oldestStep acc).1) ∈ c) ∧
    (c.foldl oldestStep acc).1 ≤ acc.1 ∧
    ∀ e ∈ c, (c.foldl oldestStep acc).1 ≤ e.2 := by
  induction c generalizing acc with
  | nil => simp
  | cons e rest ih =>
    simp only [List.foldl_cons]
    obtain ⟨hmem, hle, hall⟩ := ih (oldestStep acc e)
    have hs1 : (oldestStep acc e).1 ≤ acc.1 := by
      by_cases hlt : e.2 < acc.1
      · simp only [oldestStep, if_pos hlt]
        omega
      · simp only [oldestStep, if_neg hlt]
        omega
    have hs2 : (oldestStep acc e).1 ≤ e.2 := by
      by_cases hlt : e.2 < acc.1
      · simp only [oldestStep, if_pos hlt]
        omega
      · simp only [oldestStep, if_neg hlt]
        omega
    refine ⟨?_, le_trans hle hs1, ?_⟩
    · rcases hmem with heq | hmem2
      · rw [heq]
        by_cases hlt : e.2 < acc.1
        · right
          have hpair : ((oldestStep acc e).2, (oldestStep acc e).1) = e := by
            simp [oldestStep, hlt]
          rw [hpair]
          exact List.mem_cons_self _ _
        · left
          simp [oldestStep, hlt]
      · exact Or.inr (List.mem_cons_of_mem _ hmem2)
    · intro x hx
      rcases List.mem_cons.mp hx with rfl | hx2
      · exact le_trans hle hs2
      · exact hall x hx2

/-- When some entry is strictly older than now, findOldest returns an
actual entry of the cache, strictly older than now, whose time is
minimal. -/
theorem findOldest_mem (now : Int) (c : ReplayCache) (hex : ∃ e ∈ c, e.2 < now) :
    ((findOldest now c).2, (findOldest now c).1) ∈ c ∧
    (findOldest now c).1 < now ∧
    ∀ e ∈ c, (findOldest now c).1 ≤ e.2 := by
  obtain ⟨e0, he0, ht0⟩ := hex
  obtain ⟨hmem, _, hall⟩ := oldestFold_spec c (now, [])
  have hlt : (findOldest now c).1 < now := lt_of_le_of_lt (hall e0 he0) ht0
  rcases hmem with heq | hmem2
  · exfalso
    have : (findOldest now c).1 = now := congrArg Prod.fst heq
    omega
  · exact ⟨hmem2, hlt, hall⟩

/-- Erasing a present key from a cache with distinct keys removes exactly
one entry. -/
theorem cacheErase_length (c : ReplayCache) (k : List Char)
    (hk : k ∈ c.map Prod.fst) (hnd : (c.map Prod.fst).Nodup) :
    (cacheErase c k).length + 1 = c.length := by
  induction c with
  | nil => simp at hk
  | cons e rest ih =>
    simp only [List.map_cons, List.nodup_cons] at hnd
    obtain ⟨hnotin, hnd2⟩ := hnd
    rcases List.mem_cons.mp hk with hke | hkrest
    · have hfilter : (rest.filter (fun x => decide (x.1 ≠ k))).length = rest.length := by
        rw [List.filter_eq_self.mpr]
        intro x hx
        have hxk : x.1 ≠ k := by
          intro hcontra
          have hxe : x.1 = e.1 := hcontra.trans hke
          exact hnotin (hxe ▸ List.mem_map_of_mem Prod.fst hx)
        simpa using hxk
      simp only [cacheErase, List.filter_cons]
      rw [if_neg (by simpa using hke.symm)]
      simpa using hfilter
    · have hke : e.1 ≠ k := by
        intro hcontra
        exact hnotin (hcontra ▸ hkrest)
      simp only [cacheErase, List.filter_cons]
      rw [if_pos (by simpa using hke)]
      simp only [List.length_cons]
      have := ih hkrest hnd2
      simp only [cacheErase] at this
      omega

/-- Erasure keeps a sublist of the keys, so distinctness survives. -/
theorem cacheErase_nodup (c : ReplayCache) (k : List Char)
    (hnd : (c.map Prod.fst).Nodup) : ((cacheErase c k).map Prod.fst).Nodup :=
  hnd.sublist (List.Sublist.map Prod.fst (List.filter_sublist c))

/-- Members of an erasure are members of the cache. -/
theorem cacheErase_subset (c : ReplayCache) (k : List Char) :
    ∀ e ∈ cacheErase c k, e ∈ c := fun _e he => (List.mem_filter.mp he).1

/-- Overwriting a present key keeps the key list, hence the length. -/
theorem cacheInsert_present (c : ReplayCache) (k : List Char) (t : Int)
    (h : c.any (fun e => decide (e.1 = k)) = true) :
    (cacheInsert c k t).map Prod.fst = c.map Prod.fst ∧
    (cacheInsert c k t).length = c.length := by
  constructor
  · rw [cacheInsert, if_pos h, List.map_map]
    refine List.map_congr_left ?_
    intro e _
    by_cases he : e.1 = k
    · simp [he]
    · simp [he]
  · rw [cacheInsert, if_pos h, List.length_map]

/-- Inserting an absent key appends it. -/
theorem cacheInsert_absent (c : ReplayCache) (k : List Char) (t : Int)
    (h : ¬ c.any (fun e => decide (e.1 = k)) = true) :
    cacheInsert c k t = c ++ [(k, t)] := by
  rw [cacheInsert, if_neg h]

/-- The single CheckAndAdd insertion step preserves the cache invariant:
distinct nonempty keys, size within the cap, and no timestamp beyond now —
provided the cap is at least 1 and every stored timestamp is strictly
earlier than now. -/
theorem insertEvict_preserves (maxSize : Nat) (c : ReplayCache) (key : List Char)
    (now : Int) (hcap : 1 ≤ maxSize) (hkeyne : key ≠ [])
    (hnd : (c.map Prod.fst).Nodup) (hkeys : ∀ e ∈ c, e.1 ≠ [])
    (hsize : c.length ≤ maxSize) (htime : ∀ e ∈ c, e.2 < now) :
    ((insertAndMaybeEvict maxSize c key now).map Prod.fst).Nodup ∧
    (∀ e ∈ insertAndMaybeEvict maxSize c key now, e.1 ≠ []) ∧
    (insertAndMaybeEvict maxSize c key now).length ≤ maxSize ∧
    (∀ e ∈ insertAndMaybeEvict maxSize c key now, e.2 ≤ now) := by
  by_cases hpres : c.any (fun e => decide (e.1 = key)) = true
  · obtain ⟨hfst, hlen⟩ := cacheInsert_present c key now hpres
    have hnoev : ¬ maxSize < (cacheInsert c key now).length := by omega
    have hres : insertAndMaybeEvict maxSize c key now = cacheInsert c key now := by
      rw [insertAndMaybeEvict, if_neg hnoev]
    rw [hres]
    refine ⟨hfst ▸ hnd, ?_, by omega, ?_⟩
    · intro e he
      rw [cacheInsert, if_pos hpres] at he
      obtain ⟨x, hx, hxe⟩ := List.mem_map.mp he
      by_cases hxk : x.1 = key
      · rw [← hxe]
        simpa [hxk] using hkeyne
      · rw [← hxe]
        simpa [hxk] using hkeys x hx
    · intro e he
      rw [cacheInsert, if_pos hpres] at he
      obtain ⟨x, hx, hxe⟩ := List.mem_map.mp he
      by_cases hxk : x.1 = key
      · rw [← hxe]
        simp [hxk]
      · rw [← hxe]
        simpa [hxk] using le_of_lt (htime x hx)
  · have hc1 : cacheInsert c key now = c ++ [(key, now)] := cacheInsert_absent c key now hpres
    have hnotin : key ∉ c.map Prod.fst := by
      intro hkmem
      obtain ⟨x, hx, hxk⟩ := List.mem_map.mp hkmem
      have : c.any (fun e => decide (e.1 = key)) = true :=
        List.any_eq_true.mpr ⟨x, hx, by simpa using hxk⟩
      exact hpres this
    have hfst1 : (c ++ [(key, now)]).map Prod.fst = c.map Prod.fst ++ [key] := by simp
    have hnd1 : ((c ++ [(key, now)]).map Prod.fst).Nodup := by
      rw [hfst1]
      simp [List.nodup_append, hnd, hnotin]
    have hkeys1 : ∀ e ∈ c ++ [(key, now)], e.1 ≠ [] := by
      intro e he
      rcases List.mem_append.mp he with h1 | h2
      · exact hkeys e h1
      · rw [List.mem_singleton.mp h2]
        exact hkeyne
    have htime1 : ∀ e ∈ c ++ [(key, now)], e.2 ≤ now := by
      intro e he
      rcases List.mem_append.mp he with h1 | h2
      · exact le_of_lt (htime e h1)
      · rw [List.mem_singleton.mp h2]
    by_cases hov : maxSize < (cacheInsert c key now).length
    · have hres : insertAndMaybeEvict maxSize c key now =
          (if (findOldest now (cacheInsert c key now)).2 ≠ [] then
            cacheErase (cacheInsert c key now) (findOldest now (cacheInsert c key now)).2
          else cacheInsert c key now) := by
        rw [insertAndMaybeEvict, if_pos hov]
      have hclen : c.length = maxSize := by
        rw [hc1] at hov
        simp at hov
        omega
      have hcne : c ≠ [] := by
        intro hnil
        rw [hnil] at hclen
        simp at hclen
        omega
      obtain ⟨e0, he0⟩ := List.exists_mem_of_ne_nil c hcne
      have hex : ∃ e ∈ cacheInsert c key now, e.2 < now := by
        refine ⟨e0, ?_, htime e0 he0⟩
        rw [hc1]
        exact List.mem_append_left _ he0
      obtain ⟨hmem, _, _⟩ := findOldest_mem now _ hex
      have hbestne : (findOldest now (cacheInsert c key now)).2 ≠ [] := by
        have hb : ∀ e ∈ cacheInsert c key now, e.1 ≠ [] := by
          rw [hc1]
          exact hkeys1
        exact hb _ hmem
      rw [hres, if_pos hbestne]
      have hkmem : (findOldest now (cacheInsert c key now)).2 ∈
          (cacheInsert c key now).map Prod.fst :=
        List.mem_map_of_mem Prod.fst hmem
      have hndc1 : ((cacheInsert c key now).map Prod.fst).Nodup := hc1 ▸ hnd1
      have herlen := cacheErase_length (cacheInsert c key now) _ hkmem hndc1
      refine ⟨cacheErase_nodup _ _ hndc1, ?_, ?_, ?_⟩
      · intro e he
        have := cacheErase_subset _ _ e he
        rw [hc1] at this
        exact hkeys1 e this
      · have : (cacheInsert c key now).length = maxSize + 1 := by
          rw [hc1]
          simp
          omega
        omega
      · intro e he
        have := cacheErase_subset _ _ e he
        rw [hc1] at this
        exact htime1 e this
    · have hres : insertAndMaybeEvict maxSize c key now = cacheInsert c key now := by
        rw [insertAndMaybeEvict, if_neg hov]
      rw [hres, hc1]
      exact ⟨hnd1, hkeys1, by rw [← hc1]; omega, htime1⟩

/-- One CheckAndAdd call preserves the cache invariant. -/
theorem checkAndAdd_preserves (maxSize : Nat) (ttl : Int) (data : List Nat)
    (now : Int) (c : ReplayCache) (hcap : 1 ≤ maxSize)
    (hnd : (c.map Prod.fst).Nodup) (hkeys : ∀ e ∈ c, e.1 ≠ [])
    (hsize : c.length ≤ maxSize) (htime : ∀ e ∈ c, e.2 < now) :
    (((checkAndAdd maxSize ttl c data now).2.map Prod.fst).Nodup) ∧
    (∀ e ∈ (checkAndAdd maxSize ttl c data now).2, e.1 ≠ []) ∧
    ((checkAndAdd maxSize ttl c data now).2.length ≤ maxSize) ∧
    (∀ e ∈ (checkAndAdd maxSize ttl c data now).2, e.2 ≤ now) := by
  have hins := insertEvict_preserves maxSize c (fingerprint data) now hcap
    (fingerprint_ne_nil data) hnd hkeys hsize htime
  unfold checkAndAdd
  split
  · split
    · exact ⟨hnd, hkeys, hsize, fun e he => le_of_lt (htime e he)⟩
    · exact hins
  · exact hins

/-- Folding CheckAndAdd over operations with strictly increasing times
keeps the cache within the cap, given the invariant at the start. -/
theorem runCheckAndAdd_inv (maxSize : Nat) (ttl : Int)
    (ops : List (List Nat × Int)) (c : ReplayCache) (hcap : 1 ≤ maxSize)
    (hnd : (c.map Prod.fst).Nodup) (hkeys : ∀ e ∈ c, e.1 ≠ [])
    (hsize : c.length ≤ maxSize)
    (htimes : ∀ e ∈ c, ∀ op ∈ ops, e.2 < op.2)
    (hops : ops.Pairwise (fun a b => a.2 < b.2)) :
    (runCheckAndAdd maxSize ttl ops c).length ≤ maxSize := by
  induction ops generalizing c with
  | nil => simpa [runCheckAndAdd] using hsize
  | cons op rest ih =>
    have hstep := checkAndAdd_preserves maxSize ttl op.1 op.2 c hcap hnd hkeys hsize
      (fun e he => htimes e he op (List.mem_cons_self _ _))
    have hpair := List.pairwise_cons.mp hops
    have hrun : runCheckAndAdd maxSize ttl (op :: rest) c =
        runCheckAndAdd maxSize ttl rest (checkAndAdd maxSize ttl c op.1 op.2).2 := rfl
    rw [hrun]
    refine ih _ hstep.1 hstep.2.1 hstep.2.2.1 ?_ hpair.2
    intro e he op2 hop2
    exact lt_of_le_of_lt (hstep.2.2.2 e he) (hpair.1 op2 hop2)

set_option maxRecDepth 100000 in
/-- Counterexample to claim C9: with capacity 1, two CheckAndAdd calls with
distinct handshakes at the same instant leave two stored entries — the
eviction scan only considers entries strictly older than now, finds none,
and removes nothing, so the size exceeds the configured capacity. -/
theorem checkAndAdd_exceeds_capacity :
    (runCheckAndAdd 1 antiReplayTTL [([0], 0), ([1], 0)] []).length = 2 ∧ 1 < 2 := by
  exact ⟨by decide, by decide⟩

/-- Claim C9 as amended: the stored-entry count stays within the capacity
provided the capacity is at least 1 and the operations carry strictly
increasing timestamps (which fails for same-instant operations, as the
counterexample shows); and whenever an insertion overflows, the evicted
entry is a stored entry of minimal timestamp — precisely, the eviction scan
returns an entry of the cache whose timestamp is a lower bound of all
stored timestamps whenever any entry is strictly older than now. -/
theorem antiReplayCache_amended :
    (∀ (maxSize : Nat) (ttl : Int) (ops : List (List Nat × Int)),
      1 ≤ maxSize → ops.Pairwise (fun a b => a.2 < b.2) →
      (runCheckAndAdd maxSize ttl ops []).length ≤ maxSize) ∧
    (∀ (now : Int) (c : ReplayCache), (∃ e ∈ c, e.2 < now) →
      ((findOldest now c).2, (findOldest now c).1) ∈ c ∧
      ∀ e ∈ c, (findOldest now c).1 ≤ e.2) := by
  constructor
  · intro maxSize ttl ops hcap hops
    exact runCheckAndAdd_inv maxSize ttl ops [] hcap (by simp) (by simp) (by simp) (by simp)
      hops
  · intro now c hex
    obtain ⟨hmem, _, hall⟩ := findOldest_mem now c hex
    exact ⟨hmem, hall⟩

/-- Witness for the amended claim C9: two strictly-increasing operations
against capacity 1, and a singleton cache for the eviction-minimality
part. -/
theorem antiReplayCache_amended_witness :
    (runCheckAndAdd 1 antiReplayTTL [([0], 0), ([1], 1)] []).length ≤ 1 ∧
    (((findOldest 5 [(['a'], 2)]).2, (findOldest 5 [(['a'], 2)]).1) ∈
        [((['a'] : List Char), (2 : Int))] ∧
      ∀ e ∈ [((['a'] : List Char), (2 : Int))], (findOldest 5 [(['a'], 2)]).1 ≤ e.2) :=
  ⟨antiReplayCache_amended.1 1 antiReplayTTL [([0], 0), ([1], 1)] (by decide)
      (by simp [List.pairwise_cons]),
    antiReplayCache_amended.2 5 [(['a'], 2)] ⟨(['a'], 2), by simp, by decide⟩⟩

end MTProxy
